import Mathlib

/-!
Verification of the per-user memory store of cf_ai_social_determinant_insights
(the UserContextDO Durable Object and its deepMerge helper, src/unnamed/part_000,
with the try/catch fallback variant of the same class from src/unnamed/part_003).

The store manipulates JSON documents, so the embedding works over a JSON value
type.  JavaScript runtime behaviour is modelled as follows:

* an object is a finite ordered association list of string keys (JavaScript
  objects preserve insertion order for string keys, and property assignment
  updates an existing key in place or appends a new one);
* the statement result = JSON.parse(JSON.stringify(target)) is the identity on
  values that came from JSON (the only values the store ever holds), and throws
  a SyntaxError when target is undefined - an absent property is modelled as
  Option.none and that call as an error;
* property assignment obj[k] = v on null, undefined or a primitive throws a
  TypeError (the source is an ES module, hence strict mode);
* assignment of a non-index key on an array attaches a named property that is
  invisible to JSON serialization; the model keeps the array unchanged, which
  is the JSON image of that behaviour;
* numbers are modelled as integers (every number the store itself writes is an
  epoch-milliseconds timestamp);
* Date.now() is modelled by a clock function from a per-object call counter to
  a timestamp; faithfulness only assumes the clock is monotone, never that two
  successive reads are equal.
-/

namespace SDoH

/-- JSON values: null, booleans, numbers, strings, arrays and objects.  An
object is an insertion-ordered list of key-value pairs. -/
inductive JValue : Type
  | null : JValue
  | bool : Bool → JValue
  | num : Int → JValue
  | str : String → JValue
  | arr : List JValue → JValue
  | obj : List (String × JValue) → JValue


/-- JavaScript errors that the store can raise. -/
inductive JsError : Type
  | typeError : JsError
  | syntaxError : JsError


/-- First binding of a key in an object field list (JavaScript property
lookup on a plain object). -/
def getField : List (String × JValue) → String → Option JValue
  | [], _ => none
  | (k1, v) :: rest, k => if k1 = k then some v else getField rest k

/-- JavaScript property assignment on a plain object: replace the value of an
existing key in place, or append a new key at the end. -/
def setField : List (String × JValue) → String → JValue → List (String × JValue)
  | [], k, v => [(k, v)]
  | (k1, w) :: rest, k, v =>
      if k1 = k then (k1, v) :: rest else (k1, w) :: setField rest k v

/-- Value of a decimal digit character. -/
def digitVal (c : Char) : Option Nat :=
  if (('0') ≤ c && c ≤ ('9')) then some (c.toNat - ('0').toNat) else none

/-- Value of a digit string, by accumulation. -/
def digitsVal : List Char → Nat → Option Nat
  | [], acc => some acc
  | c :: cs, acc =>
      match digitVal c with
      | some d => digitsVal cs (acc * 10 + d)
      | none => none

/-- Canonical array-index reading of a property key, as JavaScript arrays use
it: the key must be the canonical decimal representation of the index (digits
only, no leading zero).  The 2^32 bound of JavaScript array indices is
irrelevant to any value the store handles and is not modelled. -/
def natKey (k : String) : Option Nat :=
  match k.data with
  | [] => none
  | c :: cs =>
      if (c = ('0') && decide (cs ≠ ([] : List Char))) then none
      else digitsVal (c :: cs) 0

/-- JavaScript property read v[k].  Reading any key of null or a primitive
that is not a string index, or an absent key, yields undefined (none). -/
def jGet : JValue → String → Option JValue
  | .obj fs, k => getField fs k
  | .arr xs, k =>
      match natKey k with
      | some i => xs.get? i
      | none => none
  | .str s, k =>
      match natKey k with
      | some i => (s.data.get? i).map (fun c => JValue.str (String.mk [c]))
      | none => none
  | _, _ => none

/-- JavaScript property write v[k] = x in strict mode.  Writing to null or a
primitive throws a TypeError.  Writing an index key on an array updates or
extends the array (holes are modelled by their JSON image, null); writing a
non-index key on an array attaches a named property that JSON serialization
drops, so the model keeps the array unchanged. -/
def jSet : JValue → String → JValue → Except JsError JValue
  | .obj fs, k, x => .ok (.obj (setField fs k x))
  | .arr xs, k, x =>
      match natKey k with
      | some i =>
          if i < xs.length then .ok (.arr (xs.set i x))
          else .ok (.arr (xs ++ List.replicate (i - xs.length) JValue.null ++ [x]))
      | none => .ok (.arr xs)
  | _, _, _ => .error .typeError

/-- Own enumerable properties in iteration order, as the for..in loop of
deepMerge visits them: object keys in insertion order, array and string
indices; primitives and null have none. -/
def jKeys : JValue → List (String × JValue)
  | .obj fs => fs
  | .arr xs => xs.enum.map (fun p => (toString p.fst, p.snd))
  | .str s => s.data.enum.map (fun p => (toString p.fst, JValue.str (String.mk [p.snd])))
  | _ => []

/-- The type test of deepMerge: typeof v === object, v !== null and not an
array, i.e. exactly the plain-object constructor. -/
def isPlainObject : JValue → Bool
  | .obj _ => true
  | _ => false

/-- The body of the for..in loop of deepMerge (src/unnamed/part_000 lines
28-36), folded over the source fields with the accumulated result.  For a
plain-object source value the code recurses into
deepMerge(result[key], source[key]) - note that only the source value is
inspected, so the recursion happens even when result[key] is absent (the
JSON round trip of undefined then throws a SyntaxError) or null or a
primitive (the assignments inside the recursive call then throw a
TypeError).  Any other source value is assigned wholesale.  The guard
source[key] !== undefined of the loop body is modelled by key absence: a
JSON-decoded patch can never hold undefined, and a key explicitly set to
undefined is skipped by the guard, which is observably identical to the key
not being present at all. -/
def mergeFields : List (String × JValue) → JValue → Except JsError JValue
  | [], result => .ok result
  | (k, v) :: rest, result =>
      match v with
      | .obj fs =>
          match jGet result k with
          | none => .error .syntaxError
          | some tv =>
              match mergeFields fs tv with
              | .error e => .error e
              | .ok merged =>
                  match jSet result k merged with
                  | .error e => .error e
                  | .ok result2 => mergeFields rest result2
      | _ =>
          match jSet result k v with
          | .error e => .error e
          | .ok result2 => mergeFields rest result2

/-- deepMerge of src/unnamed/part_000 lines 25-39.  The target is an Option
because the recursive call passes result[key], which is undefined when the
key is absent; JSON.parse(JSON.stringify(undefined)) then throws.  On pure
JSON values the round trip is the identity, so a present target goes
straight to the field loop. -/
def deepMerge (target : Option JValue) (source : JValue) : Except JsError JValue :=
  match target with
  | none => .error .syntaxError
  | some t => mergeFields (jKeys source) t

/-- Modelled from the spec, section 4.1 deep-merge algorithm, for comparison
with the deepMerge of the code: for each key of the source, if the value is a
plain object in BOTH target and source, recurse; otherwise assign the source
value wholesale; keys present only in the target are untouched. -/
def specMergeFields : List (String × JValue) → List (String × JValue) → List (String × JValue)
  | [], ts => ts
  | (k, v) :: rest, ts =>
      match v with
      | .obj fs =>
          match getField ts k with
          | some (.obj tfs) =>
              specMergeFields rest (setField ts k (.obj (specMergeFields fs tfs)))
          | _ => specMergeFields rest (setField ts k (.obj fs))
      | _ => specMergeFields rest (setField ts k v)

/-- The alignment condition under which the merge of the code coincides with
the merge of the spec: along the sequential field traversal, every key the
patch supplies as a plain object is also a plain object in the (updated)
target. -/
def alignedFields : List (String × JValue) → List (String × JValue) → Bool
  | [], _ => true
  | (k, v) :: rest, ts =>
      match v with
      | .obj fs =>
          match getField ts k with
          | some (.obj tfs) =>
              alignedFields fs tfs &&
                alignedFields rest (setField ts k (.obj (specMergeFields fs tfs)))
          | _ => false
      | _ => alignedFields rest (setField ts k v)

/-- The statement updated.meta.lastActive = Date.now() of updateMemory.  The
base updated.meta is read first; if it is undefined the assignment throws a
TypeError, and if it is null or a primitive the property write throws. -/
def setLastActive (v : JValue) (t : Nat) : Except JsError JValue :=
  match jGet v (r"meta") with
  | none => .error .typeError
  | some m =>
      match jSet m (r"lastActive") (.num t) with
      | .error e => .error e
      | .ok m2 => jSet v (r"meta") m2

/-- The record created on first access (src/unnamed/part_000 lines 19-23 and
49): the spread of DEFAULT_MEMORY replaces meta wholesale, so the value is
the empty profile and conversation together with the two fresh clock reads.
The module-level DEFAULT_MEMORY constant is this same shape at the two
module-load clock reads. -/
def DEFAULT_MEMORY (createdAt lastActive : Nat) : JValue :=
  .obj
    [ ((r"profile"),
        .obj
          [ ((r"riskFactors"), .arr []),
            ((r"conditions"), .arr []),
            ((r"interests"), .arr []) ]),
      ((r"conversation"),
        .obj
          [ ((r"recentQuestions"), .arr []),
            ((r"keyInsights"), .arr []) ]),
      ((r"meta"),
        .obj
          [ ((r"createdAt"), .num createdAt),
            ((r"lastActive"), .num lastActive) ]) ]

/-- State of one UserContextDO instance: the value stored under the key
memory, and the number of Date.now() calls this instance has made (the index
into its clock). -/
structure DOState where
  mem : Option JValue
  tick : Nat


/-- A clock maps the Date.now() call counter to an epoch-milliseconds value. -/
def Clock : Type := Nat → Nat

/-- Real time never decreases across successive Date.now() calls. -/
def Clock.Mono (clock : Clock) : Prop := ∀ i j, i ≤ j → clock i ≤ clock j

/-- getMemory of src/unnamed/part_000 lines 46-53: return the stored record
unchanged if present; otherwise build a fresh record from two successive
Date.now() reads (createdAt first, lastActive second), persist it and return
it. -/
def getMemory (clock : Clock) (s : DOState) : JValue × DOState :=
  match s.mem with
  | some m => (m, s)
  | none =>
      let m := DEFAULT_MEMORY (clock s.tick) (clock (s.tick + 1))
      (m, ⟨some m, s.tick + 2⟩)

/-- updateMemory of src/unnamed/part_000 lines 55-61: load (or create) the
current record, deep-merge the patch onto it, stamp meta.lastActive with
Date.now(), persist and return the result.  A throw from deepMerge happens
before the Date.now() call; a throw from the lastActive assignment happens
after it and before the persist, leaving the stored record unchanged. -/
def updateMemory (clock : Clock) (patch : JValue) (s : DOState) :
    Except JsError JValue × DOState :=
  match getMemory clock s with
  | (current, s1) =>
      match deepMerge (some current) patch with
      | .error e => (.error e, s1)
      | .ok merged =>
          match setLastActive merged (clock s1.tick) with
          | .error e => (.error e, ⟨s1.mem, s1.tick + 1⟩)
          | .ok updated => (.ok updated, ⟨some updated, s1.tick + 1⟩)

/-- State of the fallback variant of UserContextDO (src/unnamed/part_003):
besides the stored record and clock counter, whether the storage get and put
calls currently succeed. -/
structure FDOState where
  mem : Option JValue
  tick : Nat
  getOk : Bool
  putOk : Bool


/-- getMemory of the fallback variant (src/unnamed/part_003): reads are tried
first; if the read or the creation-time put throws, the exception is caught,
logged, and a fresh default record is returned without being persisted. -/
def getMemoryF (clock : Clock) (s : FDOState) : JValue × FDOState :=
  if s.getOk then
    match s.mem with
    | some m => (m, s)
    | none =>
        let m := DEFAULT_MEMORY (clock s.tick) (clock (s.tick + 1))
        if s.putOk then (m, ⟨some m, s.tick + 2, s.getOk, s.putOk⟩)
        else
          (DEFAULT_MEMORY (clock (s.tick + 2)) (clock (s.tick + 3)),
            ⟨s.mem, s.tick + 4, s.getOk, s.putOk⟩)
  else
    (DEFAULT_MEMORY (clock s.tick) (clock (s.tick + 1)),
      ⟨s.mem, s.tick + 2, s.getOk, s.putOk⟩)

/-- updateMemory of the fallback variant (src/unnamed/part_003 lines 166-180):
identical to the primary variant except that the persistence write sits in a
try/catch - when the put fails the error is caught and logged and the merged
record is still returned as the successful result, with the stored record
unchanged. -/
def updateMemoryF (clock : Clock) (patch : JValue) (s : FDOState) :
    Except JsError JValue × FDOState :=
  match getMemoryF clock s with
  | (current, s1) =>
      match deepMerge (some current) patch with
      | .error e => (.error e, s1)
      | .ok merged =>
          match setLastActive merged (clock s1.tick) with
          | .error e => (.error e, ⟨s1.mem, s1.tick + 1, s1.getOk, s1.putOk⟩)
          | .ok updated =>
              if s1.putOk then
                (.ok updated, ⟨some updated, s1.tick + 1, s1.getOk, s1.putOk⟩)
              else (.ok updated, ⟨s1.mem, s1.tick + 1, s1.getOk, s1.putOk⟩)

/-- A system of Durable Objects, one per user identity: the worker resolves
each userId through idFromName to its own object instance, so the state is a
map from identity to instance state. -/
def SystemState : Type := String → DOState

/-- A patch request for one identity acts on that identity's object only. -/
def sysPatch (clock : Clock) (uid : String) (patch : JValue) (sys : SystemState) :
    SystemState :=
  fun u => if u = uid then (updateMemory clock patch (sys u)).snd else sys u

/-- Two-level property read, for stating facts about record fields such as
profile.riskFactors. -/
def jGet2 (v : JValue) (k1 k2 : String) : Option JValue :=
  match jGet v k1 with
  | some w => jGet w k2
  | none => none

/-- The patch supplying profile.riskFactors as the array with the string X,
used by the no-lost-update scenario of the spec. -/
def patchRiskX : JValue :=
  .obj [((r"profile"), .obj [((r"riskFactors"), .arr [.str (r"X")])])]

/-- The patch supplying profile.conditions as the array with the string Y,
used by the no-lost-update scenario of the spec. -/
def patchCondY : JValue :=
  .obj [((r"profile"), .obj [((r"conditions"), .arr [.str (r"Y")])])]

/-- Writing a key and reading it back yields the written value. -/
theorem getField_setField_self (fs : List (String × JValue)) (k : String) (v : JValue) :
    getField (setField fs k v) k = some v := by
  induction fs with
  | nil => simp [setField, getField]
  | cons p rest ih =>
      obtain ⟨k1, w⟩ := p
      by_cases h : k1 = k
      · simp [setField, getField, h]
      · simp [setField, getField, h, ih]

/-- Writing one key leaves every other key unchanged. -/
theorem getField_setField_ne (fs : List (String × JValue)) (k k2 : String) (v : JValue)
    (h : k2 ≠ k) : getField (setField fs k v) k2 = getField fs k2 := by
  induction fs with
  | nil => simp [setField, getField, Ne.symm h]
  | cons p rest ih =>
      obtain ⟨k1, w⟩ := p
      by_cases h1 : k1 = k
      · subst h1
        simp [setField, getField, Ne.symm h]
      · simp only [setField, if_neg h1]
        by_cases h2 : k1 = k2
        · simp [getField, h2]
        · simp [getField, h2, ih]

/-- A key reads as absent exactly when it is not among the field keys. -/
theorem getField_none_iff (fs : List (String × JValue)) (k : String) :
    getField fs k = none ↔ k ∉ fs.map Prod.fst := by
  induction fs with
  | nil => simp [getField]
  | cons p rest ih =>
      obtain ⟨k1, w⟩ := p
      by_cases h : k1 = k
      · simp [getField, h]
      · simp [getField, h, ih, Ne.symm h]

/-- A read of a stored record returns it and leaves the state untouched. -/
theorem getMemory_some (clock : Clock) {s : DOState} {m : JValue} (h : s.mem = some m) :
    getMemory clock s = (m, s) := by
  obtain ⟨mem, tick⟩ := s
  simp only at h
  subst h
  rfl

/-- One step of the merge loop, unpacked: the head field is resolved to the
written value w (by recursive merge for a plain-object patch value, verbatim
otherwise) and the loop continues on the updated accumulator. -/
theorem mergeFields_cons_ok {k0 : String} {v0 : JValue} {rest ts : List (String × JValue)}
    {r : JValue} (h : mergeFields ((k0, v0) :: rest) (.obj ts) = .ok r) :
    ∃ w, mergeFields rest (.obj (setField ts k0 w)) = .ok r ∧
      ((∃ fs0 tv, v0 = .obj fs0 ∧ getField ts k0 = some tv ∧ mergeFields fs0 tv = .ok w) ∨
        (isPlainObject v0 = false ∧ w = v0)) := by
  cases v0 with
  | obj fs0 =>
      simp only [mergeFields, jGet] at h
      split at h
      · exact absurd h (by simp)
      · rename_i tv hget
        split at h
        · exact absurd h (by simp)
        · rename_i w hm
          simp only [jSet] at h
          exact ⟨w, h, Or.inl ⟨fs0, tv, rfl, hget, hm⟩⟩
  | null => exact ⟨_, by simpa [mergeFields, jSet] using h, Or.inr ⟨rfl, rfl⟩⟩
  | bool b => exact ⟨_, by simpa [mergeFields, jSet] using h, Or.inr ⟨rfl, rfl⟩⟩
  | num n => exact ⟨_, by simpa [mergeFields, jSet] using h, Or.inr ⟨rfl, rfl⟩⟩
  | str s => exact ⟨_, by simpa [mergeFields, jSet] using h, Or.inr ⟨rfl, rfl⟩⟩
  | arr xs => exact ⟨_, by simpa [mergeFields, jSet] using h, Or.inr ⟨rfl, rfl⟩⟩

/-- A successful merge into an object produces an object. -/
theorem mergeFields_isObj {fs : List (String × JValue)} :
    ∀ {ts : List (String × JValue)} {r : JValue},
      mergeFields fs (.obj ts) = .ok r → ∃ ts2, r = .obj ts2 := by
  induction fs with
  | nil =>
      intro ts r h
      simp only [mergeFields] at h
      exact ⟨ts, by simpa using h.symm⟩
  | cons p rest ih =>
      intro ts r h
      obtain ⟨k0, v0⟩ := p
      obtain ⟨w, hrest, _⟩ := mergeFields_cons_ok h
      exact ih hrest

/-- Frame property of the merge loop: a key the patch does not mention keeps
its value from the target. -/
theorem mergeFields_frame {fs : List (String × JValue)} {k : String} :
    ∀ {ts : List (String × JValue)} {r : JValue},
      mergeFields fs (.obj ts) = .ok r → k ∉ fs.map Prod.fst →
      ∃ ts2, r = .obj ts2 ∧ getField ts2 k = getField ts k := by
  induction fs with
  | nil =>
      intro ts r h _
      simp only [mergeFields] at h
      exact ⟨ts, by simpa using h.symm, rfl⟩
  | cons p rest ih =>
      intro ts r h hk
      obtain ⟨k0, v0⟩ := p
      simp only [List.map_cons, List.mem_cons, not_or] at hk
      obtain ⟨hk0, hkrest⟩ := hk
      obtain ⟨w, hrest, _⟩ := mergeFields_cons_ok h
      obtain ⟨ts2, hr, heq⟩ := ih hrest hkrest
      exact ⟨ts2, hr, by rw [heq, getField_setField_ne _ _ _ _ hk0]⟩

/-- A key the patch supplies with a non-object value ends up holding exactly
that value after a successful merge (keys are assumed distinct, as they are
in any JavaScript object). -/
theorem mergeFields_assign {fs : List (String × JValue)} {k : String} {v : JValue}
    (hv : isPlainObject v = false) :
    ∀ {ts : List (String × JValue)} {r : JValue},
      (fs.map Prod.fst).Nodup → getField fs k = some v →
      mergeFields fs (.obj ts) = .ok r →
      ∃ ts2, r = .obj ts2 ∧ getField ts2 k = some v := by
  induction fs with
  | nil => intro ts r _ hg _; simp [getField] at hg
  | cons p rest ih =>
      intro ts r hnd hg h
      obtain ⟨k0, v0⟩ := p
      simp only [List.map_cons, List.nodup_cons] at hnd
      obtain ⟨hk0nd, hndrest⟩ := hnd
      obtain ⟨w, hrest, hspec⟩ := mergeFields_cons_ok h
      by_cases hk : k0 = k
      · subst hk
        simp only [getField, if_pos rfl] at hg
        obtain hg := Option.some.inj hg
        subst hg
        have hw : w = v0 := by
          rcases hspec with ⟨fs0, tv, hv0, _, _⟩ | ⟨_, hw⟩
          · rw [hv0] at hv; simp [isPlainObject] at hv
          · exact hw
        subst hw
        have hkrest : k0 ∉ rest.map Prod.fst := by
          intro hmem; exact hk0nd (by simpa using hmem)
        obtain ⟨ts2, hr, heq⟩ := mergeFields_frame hrest hkrest
        exact ⟨ts2, hr, by rw [heq, getField_setField_self]⟩
      · simp only [getField, if_neg hk] at hg
        exact ih hndrest hg hrest

/-- A key the patch supplies with a plain-object value triggers a recursive
merge with the value the target holds at that key, and the result of that
recursive merge is stored at the key. -/
theorem mergeFields_recurse {fs : List (String × JValue)} {k : String}
    {sub : List (String × JValue)} :
    ∀ {ts : List (String × JValue)} {r : JValue},
      (fs.map Prod.fst).Nodup → getField fs k = some (.obj sub) →
      mergeFields fs (.obj ts) = .ok r →
      ∃ tv m ts2, r = .obj ts2 ∧ getField ts k = some tv ∧
        mergeFields sub tv = .ok m ∧ getField ts2 k = some m := by
  induction fs with
  | nil => intro ts r _ hg _; simp [getField] at hg
  | cons p rest ih =>
      intro ts r hnd hg h
      obtain ⟨k0, v0⟩ := p
      simp only [List.map_cons, List.nodup_cons] at hnd
      obtain ⟨hk0nd, hndrest⟩ := hnd
      obtain ⟨w, hrest, hspec⟩ := mergeFields_cons_ok h
      by_cases hk : k0 = k
      · subst hk
        simp [getField] at hg
        rcases hspec with ⟨fs0, tv, hv0, hget, hm⟩ | ⟨hpo, _⟩
        · rw [hv0] at hg
          obtain hfs0 := (JValue.obj.injEq _ _).mp hg
          subst hfs0
          have hkrest : k0 ∉ rest.map Prod.fst := by
            intro hmem; exact hk0nd (by simpa using hmem)
          obtain ⟨ts2, hr, heq⟩ := mergeFields_frame hrest hkrest
          exact ⟨tv, w, ts2, hr, hget, hm, by rw [heq, getField_setField_self]⟩
        · rw [hg] at hpo; simp [isPlainObject] at hpo
      · simp only [getField, if_neg hk] at hg
        obtain ⟨tv, m, ts2, hr, hget, hm, heq⟩ := ih hndrest hg hrest
        rw [getField_setField_ne _ _ _ _ (Ne.symm hk)] at hget
        exact ⟨tv, m, ts2, hr, hget, hm, heq⟩

/-- Computation of the lastActive stamp when the merged record has a
plain-object meta field. -/
theorem setLastActive_obj {fs ms : List (String × JValue)} (t : Nat)
    (hm : getField fs (r"meta") = some (.obj ms)) :
    setLastActive (.obj fs) t =
      .ok (.obj (setField fs (r"meta")
        (.obj (setField ms (r"lastActive") (.num t))))) := by
  simp [setLastActive, jGet, hm, jSet]

/-- A successful lastActive stamp acts on an object record and only rewrites
its meta field. -/
theorem setLastActive_ok_shape {v u : JValue} {t : Nat} (h : setLastActive v t = .ok u) :
    ∃ fs m2, v = .obj fs ∧ u = .obj (setField fs (r"meta") m2) := by
  cases v with
  | obj fs =>
      simp only [setLastActive, jGet] at h
      split at h
      · exact absurd h (by simp)
      · rename_i m hg
        split at h
        · exact absurd h (by simp)
        · rename_i m2 hs
          simp only [jSet] at h
          exact ⟨fs, m2, rfl, by simpa using h.symm⟩
  | null => exact absurd h (by simp [setLastActive, jGet])
  | bool b => exact absurd h (by simp [setLastActive, jGet])
  | num n => exact absurd h (by simp [setLastActive, jGet])
  | str s =>
      exact absurd h (by simp [setLastActive, jGet, natKey, digitsVal, digitVal])
  | arr xs =>
      exact absurd h (by simp [setLastActive, jGet, natKey, digitsVal, digitVal])

/-- Unfolding a successful updateMemory on an existing record: the patch was
merged, the merge result was stamped with the clock read, and the stamped
record was persisted. -/
theorem updateMemory_ok (clock : Clock) {p : JValue} {s : DOState} {m u : JValue}
    {s2 : DOState} (hm : s.mem = some m) (h : updateMemory clock p s = (.ok u, s2)) :
    ∃ merged, deepMerge (some m) p = .ok merged ∧
      setLastActive merged (clock s.tick) = .ok u ∧ s2 = ⟨some u, s.tick + 1⟩ := by
  simp only [updateMemory, getMemory_some clock hm] at h
  split at h
  · exact absurd h (by simp)
  · rename_i merged hd
    split at h
    · exact absurd h (by simp)
    · rename_i u0 hs
      simp only [Prod.mk.injEq, Except.ok.injEq] at h
      obtain ⟨h1, h2⟩ := h
      subst h1
      exact ⟨merged, hd, hs, h2.symm⟩

/-- One step of the spec merge always continues on the accumulator with some
value written at the head key. -/
theorem specMergeFields_cons (k0 : String) (v0 : JValue)
    (rest ts : List (String × JValue)) :
    ∃ w, specMergeFields ((k0, v0) :: rest) ts = specMergeFields rest (setField ts k0 w) := by
  cases v0 with
  | obj fs0 =>
      cases hget : getField ts k0 with
      | none => exact ⟨.obj fs0, by simp only [specMergeFields, hget]⟩
      | some tv =>
          cases tv with
          | obj tfs =>
              exact ⟨.obj (specMergeFields fs0 tfs), by simp only [specMergeFields, hget]⟩
          | null => exact ⟨.obj fs0, by simp only [specMergeFields, hget]⟩
          | bool b => exact ⟨.obj fs0, by simp only [specMergeFields, hget]⟩
          | num n => exact ⟨.obj fs0, by simp only [specMergeFields, hget]⟩
          | str s => exact ⟨.obj fs0, by simp only [specMergeFields, hget]⟩
          | arr xs => exact ⟨.obj fs0, by simp only [specMergeFields, hget]⟩
  | null => exact ⟨JValue.null, by simp only [specMergeFields]⟩
  | bool b => exact ⟨.bool b, by simp only [specMergeFields]⟩
  | num n => exact ⟨.num n, by simp only [specMergeFields]⟩
  | str s => exact ⟨.str s, by simp only [specMergeFields]⟩
  | arr xs => exact ⟨.arr xs, by simp only [specMergeFields]⟩

/-- The spec merge preserves every key the patch does not mention. -/
theorem specMergeFields_frame {fs : List (String × JValue)} {k : String} :
    ∀ {ts : List (String × JValue)}, k ∉ fs.map Prod.fst →
      getField (specMergeFields fs ts) k = getField ts k := by
  induction fs with
  | nil => intro ts _; simp only [specMergeFields]
  | cons p rest ih =>
      intro ts hk
      obtain ⟨k0, v0⟩ := p
      simp only [List.map_cons, List.mem_cons, not_or] at hk
      obtain ⟨hk0, hkrest⟩ := hk
      obtain ⟨w, hw⟩ := specMergeFields_cons k0 v0 rest ts
      rw [hw, ih hkrest, getField_setField_ne _ _ _ _ hk0]

/-- Strong induction core: under the alignment condition the merge of the
code succeeds and computes exactly the merge of the spec. -/
theorem mergeFields_eq_spec_aux :
    ∀ (n : Nat) (fs ts : List (String × JValue)), sizeOf fs ≤ n →
      alignedFields fs ts = true →
      mergeFields fs (.obj ts) = .ok (.obj (specMergeFields fs ts)) := by
  intro n
  induction n with
  | zero =>
      intro fs ts hsz _
      cases fs with
      | nil => simp only [mergeFields, specMergeFields]
      | cons p rest => simp at hsz
  | succ n ih =>
      intro fs ts hsz hal
      cases fs with
      | nil => simp only [mergeFields, specMergeFields]
      | cons p rest =>
          obtain ⟨k0, v0⟩ := p
          cases v0 with
          | obj fs0 =>
              cases hget : getField ts k0 with
              | none => simp [alignedFields, hget] at hal
              | some tv =>
                  cases tv with
                  | obj tfs =>
                      simp only [alignedFields, hget, Bool.and_eq_true] at hal
                      obtain ⟨hal1, hal2⟩ := hal
                      have hb1 : sizeOf fs0 ≤ n := by simp at hsz; omega
                      have hb2 : sizeOf rest ≤ n := by simp at hsz; omega
                      have hm0 := ih fs0 tfs hb1 hal1
                      have hstep :
                          mergeFields ((k0, .obj fs0) :: rest) (.obj ts) =
                            mergeFields rest
                              (.obj (setField ts k0 (.obj (specMergeFields fs0 tfs)))) := by
                        simp only [mergeFields, jGet, hget, hm0, jSet]
                      rw [hstep, ih rest _ hb2 hal2]
                      simp only [specMergeFields, hget]
                  | null => simp [alignedFields, hget] at hal
                  | bool b => simp [alignedFields, hget] at hal
                  | num m => simp [alignedFields, hget] at hal
                  | str s => simp [alignedFields, hget] at hal
                  | arr xs => simp [alignedFields, hget] at hal
          | null =>
              simp only [alignedFields] at hal
              have hb2 : sizeOf rest ≤ n := by simp at hsz; omega
              have hstep :
                  mergeFields ((k0, JValue.null) :: rest) (.obj ts) =
                    mergeFields rest (.obj (setField ts k0 JValue.null)) := by
                simp only [mergeFields, jSet]
              rw [hstep, ih rest _ hb2 hal]
              simp only [specMergeFields]
          | bool b =>
              simp only [alignedFields] at hal
              have hb2 : sizeOf rest ≤ n := by simp at hsz; omega
              have hstep :
                  mergeFields ((k0, JValue.bool b) :: rest) (.obj ts) =
                    mergeFields rest (.obj (setField ts k0 (.bool b))) := by
                simp only [mergeFields, jSet]
              rw [hstep, ih rest _ hb2 hal]
              simp only [specMergeFields]
          | num m =>
              simp only [alignedFields] at hal
              have hb2 : sizeOf rest ≤ n := by simp at hsz; omega
              have hstep :
                  mergeFields ((k0, JValue.num m) :: rest) (.obj ts) =
                    mergeFields rest (.obj (setField ts k0 (.num m))) := by
                simp only [mergeFields, jSet]
              rw [hstep, ih rest _ hb2 hal]
              simp only [specMergeFields]
          | str q =>
              simp only [alignedFields] at hal
              have hb2 : sizeOf rest ≤ n := by simp at hsz; omega
              have hstep :
                  mergeFields ((k0, JValue.str q) :: rest) (.obj ts) =
                    mergeFields rest (.obj (setField ts k0 (.str q))) := by
                simp only [mergeFields, jSet]
              rw [hstep, ih rest _ hb2 hal]
              simp only [specMergeFields]
          | arr xs =>
              simp only [alignedFields] at hal
              have hb2 : sizeOf rest ≤ n := by simp at hsz; omega
              have hstep :
                  mergeFields ((k0, JValue.arr xs) :: rest) (.obj ts) =
                    mergeFields rest (.obj (setField ts k0 (.arr xs))) := by
                simp only [mergeFields, jSet]
              rw [hstep, ih rest _ hb2 hal]
              simp only [specMergeFields]

/-- Full computation of updateMemory for a patch that supplies one section
with one field of non-object value, against a stored record whose section and
meta are plain objects: the section field is overwritten, siblings are kept,
meta.lastActive is stamped, and the result is persisted and returned. -/
theorem updateMemory_single_field (clock : Clock) (n : Nat)
    (rs ssec ms : List (String × JValue)) (sec fld : String) (v : JValue)
    (hsec : getField rs sec = some (.obj ssec))
    (hmeta : getField rs (r"meta") = some (.obj ms))
    (hne : sec ≠ (r"meta"))
    (hv : isPlainObject v = false) :
    updateMemory clock (.obj [(sec, .obj [(fld, v)])]) ⟨some (.obj rs), n⟩ =
      (.ok (.obj (setField (setField rs sec (.obj (setField ssec fld v))) (r"meta")
          (.obj (setField ms (r"lastActive") (.num (clock n)))))),
        ⟨some (.obj (setField (setField rs sec (.obj (setField ssec fld v))) (r"meta")
          (.obj (setField ms (r"lastActive") (.num (clock n)))))), n + 1⟩) := by
  have h1 : deepMerge (some (.obj rs)) (.obj [(sec, .obj [(fld, v)])]) =
      .ok (.obj (setField rs sec (.obj (setField ssec fld v)))) := by
    cases v with
    | obj fs => simp [isPlainObject] at hv
    | null => simp [deepMerge, jKeys, mergeFields, jGet, jSet, hsec]
    | bool b => simp [deepMerge, jKeys, mergeFields, jGet, jSet, hsec]
    | num m => simp [deepMerge, jKeys, mergeFields, jGet, jSet, hsec]
    | str q => simp [deepMerge, jKeys, mergeFields, jGet, jSet, hsec]
    | arr xs => simp [deepMerge, jKeys, mergeFields, jGet, jSet, hsec]
  have h2 : getField (setField rs sec (.obj (setField ssec fld v))) (r"meta") =
      some (.obj ms) := by
    rw [getField_setField_ne _ _ _ _ (Ne.symm hne), hmeta]
  have h3 := setLastActive_obj (clock n) h2
  simp only [updateMemory, getMemory, h1, h3]

/-- C1 (amended): the recursion condition of deepMerge inspects only the
patch value, so the code computes the merge of the spec exactly on aligned
inputs - those where every key the patch supplies as a plain object is a
plain object in the target too (in particular on schema-shaped records and
patches); under that condition arrays, primitives and null are assigned
wholesale, nested objects merge recursively, and keys present only in the
target - siblings included - are preserved untouched. -/
theorem deepMerge_agrees_with_spec_when_aligned
    (ts fs : List (String × JValue)) (hal : alignedFields fs ts = true) :
    deepMerge (some (.obj ts)) (.obj fs) = .ok (.obj (specMergeFields fs ts)) ∧
    ∀ k, k ∉ fs.map Prod.fst → getField (specMergeFields fs ts) k = getField ts k := by
  constructor
  · have hmain := mergeFields_eq_spec_aux (sizeOf fs) fs ts (le_refl _) hal
    simpa [deepMerge, jKeys] using hmain
  · intro k hk
    exact specMergeFields_frame hk

/-- C1 witness: the sibling-preservation example of the spec, profile with
riskFactors A and conditions B patched with conditions C, is aligned, so the
theorem applies to it. -/
theorem deepMerge_agrees_witness :
    deepMerge
        (some (.obj [((r"riskFactors"), .arr [.str (r"A")]),
          ((r"conditions"), .arr [.str (r"B")])]))
        (.obj [((r"conditions"), .arr [.str (r"C")])]) =
      .ok (.obj (specMergeFields [((r"conditions"), .arr [.str (r"C")])]
        [((r"riskFactors"), .arr [.str (r"A")]), ((r"conditions"), .arr [.str (r"B")])])) ∧
    ∀ k, k ∉ ([((r"conditions"), JValue.arr [.str (r"C")])].map Prod.fst) →
      getField (specMergeFields [((r"conditions"), .arr [.str (r"C")])]
        [((r"riskFactors"), .arr [.str (r"A")]), ((r"conditions"), .arr [.str (r"B")])]) k =
      getField [((r"riskFactors"), .arr [.str (r"A")]),
        ((r"conditions"), .arr [.str (r"B")])] k :=
  deepMerge_agrees_with_spec_when_aligned
    [((r"riskFactors"), .arr [.str (r"A")]), ((r"conditions"), .arr [.str (r"B")])]
    [((r"conditions"), .arr [.str (r"C")])] (by simp [alignedFields])

/-- C1 counterexample: with target key a holding null and the patch
supplying a as the object with b one, the spec assigns the patch object
wholesale, but deepMerge recurses into the null target and throws a
TypeError, so the merge of the code is not the merge the claim describes. -/
theorem deepMerge_spec_divergence_null_target :
    deepMerge (some (.obj [((r"a"), JValue.null)]))
        (.obj [((r"a"), .obj [((r"b"), .num 1)])]) = .error .typeError ∧
    specMergeFields [((r"a"), .obj [((r"b"), .num 1)])] [((r"a"), JValue.null)] =
      [((r"a"), .obj [((r"b"), .num 1)])] ∧
    ∀ res, deepMerge (some (.obj [((r"a"), JValue.null)]))
        (.obj [((r"a"), .obj [((r"b"), .num 1)])]) ≠ .ok res := by
  refine ⟨rfl, by simp [specMergeFields, getField, setField], fun res h => ?_⟩
  exact Except.noConfusion h

/-- C2: a patch that supplies a section field with an array value makes the
persisted and returned record hold exactly that array at the field, with no
element merging or appending, for every stored record whose section and the
patch are schema shaped. -/
theorem patch_array_replaced_wholesale (clock : Clock) (n : Nat)
    {rs tsec fs sub : List (String × JValue)} {sec fld : String} {xs : List JValue}
    {u : JValue} {s2 : DOState}
    (h : updateMemory clock (.obj fs) ⟨some (.obj rs), n⟩ = (.ok u, s2))
    (hsec : getField rs sec = some (.obj tsec))
    (hsm : sec ≠ (r"meta"))
    (hnd : (fs.map Prod.fst).Nodup)
    (hnds : (sub.map Prod.fst).Nodup)
    (hpsec : getField fs sec = some (.obj sub))
    (hpfld : getField sub fld = some (.arr xs)) :
    ∃ us msec, u = .obj us ∧ s2.mem = some u ∧
      getField us sec = some (.obj msec) ∧ getField msec fld = some (.arr xs) := by
  obtain ⟨merged, hdm, hsl, hs2⟩ := updateMemory_ok clock rfl h
  have hdm2 : mergeFields fs (.obj rs) = .ok merged := by
    simpa [deepMerge, jKeys] using hdm
  obtain ⟨tv, m, mrs, hmr, hgetrs, hmsub, hmrs⟩ := mergeFields_recurse hnd hpsec hdm2
  have htv : tv = .obj tsec := by
    rw [hsec] at hgetrs
    exact (Option.some.inj hgetrs).symm
  subst htv
  obtain ⟨msec, hmeq, hmfld⟩ :=
    mergeFields_assign (show isPlainObject (JValue.arr xs) = false from rfl) hnds hpfld hmsub
  subst hmeq
  subst hmr
  obtain ⟨fs2, m2, hfs2, hu⟩ := setLastActive_ok_shape hsl
  have hfs2e : mrs = fs2 := (JValue.obj.injEq _ _).mp hfs2
  subst hfs2e
  refine ⟨setField mrs (r"meta") m2, msec, hu, ?_, ?_, hmfld⟩
  · rw [hs2]
  · rw [getField_setField_ne _ _ _ _ hsm]
    exact hmrs

/-- C2 witness: patching conversation.recentQuestions with the singleton Q2
over a stored record holding Q1 leaves exactly Q2, per the theorem. -/
theorem patch_array_replaced_wholesale_witness :
    ∃ u s2,
      updateMemory (fun _ => 5)
          (.obj [((r"conversation"), .obj [((r"recentQuestions"), .arr [.str (r"Q2")])])])
          ⟨some (.obj
            [((r"conversation"), .obj [((r"recentQuestions"), .arr [.str (r"Q1")]),
              ((r"keyInsights"), .arr [])]),
             ((r"meta"), .obj [((r"createdAt"), .num 0), ((r"lastActive"), .num 0)])]), 0⟩ =
        (.ok u, s2) ∧
      ∃ us msec, u = .obj us ∧ s2.mem = some u ∧
        getField us (r"conversation") = some (.obj msec) ∧
        getField msec (r"recentQuestions") = some (.arr [.str (r"Q2")]) := by
  have h := updateMemory_single_field (fun _ => 5) 0
    [((r"conversation"), .obj [((r"recentQuestions"), .arr [.str (r"Q1")]),
        ((r"keyInsights"), .arr [])]),
      ((r"meta"), .obj [((r"createdAt"), .num 0), ((r"lastActive"), .num 0)])]
    [((r"recentQuestions"), .arr [.str (r"Q1")]), ((r"keyInsights"), .arr [])]
    [((r"createdAt"), .num 0), ((r"lastActive"), .num 0)]
    (r"conversation") (r"recentQuestions") (.arr [.str (r"Q2")])
    rfl rfl (by decide) rfl
  exact ⟨_, _, h,
    patch_array_replaced_wholesale (fun _ => 5) 0 h rfl (by decide) (by decide)
      (by decide) rfl rfl⟩

/-- C3 (amended): the first get on a fresh identity creates, persists and
returns a record whose five sequence fields are all empty; createdAt and
lastActive are two successive Date.now() reads made during the creating
call, so under a monotone clock createdAt is at most lastActive - they are
equal exactly when the clock does not advance between the two reads. -/
theorem first_get_creates_default_record (clock : Clock) (hmono : Clock.Mono clock)
    (n : Nat) :
    getMemory clock ⟨none, n⟩ =
      (DEFAULT_MEMORY (clock n) (clock (n + 1)),
        ⟨some (DEFAULT_MEMORY (clock n) (clock (n + 1))), n + 2⟩) ∧
    jGet2 (DEFAULT_MEMORY (clock n) (clock (n + 1))) (r"profile") (r"riskFactors") =
      some (.arr []) ∧
    jGet2 (DEFAULT_MEMORY (clock n) (clock (n + 1))) (r"profile") (r"conditions") =
      some (.arr []) ∧
    jGet2 (DEFAULT_MEMORY (clock n) (clock (n + 1))) (r"profile") (r"interests") =
      some (.arr []) ∧
    jGet2 (DEFAULT_MEMORY (clock n) (clock (n + 1))) (r"conversation") (r"recentQuestions") =
      some (.arr []) ∧
    jGet2 (DEFAULT_MEMORY (clock n) (clock (n + 1))) (r"conversation") (r"keyInsights") =
      some (.arr []) ∧
    jGet2 (DEFAULT_MEMORY (clock n) (clock (n + 1))) (r"meta") (r"createdAt") =
      some (.num (clock n)) ∧
    jGet2 (DEFAULT_MEMORY (clock n) (clock (n + 1))) (r"meta") (r"lastActive") =
      some (.num (clock (n + 1))) ∧
    clock n ≤ clock (n + 1) :=
  ⟨rfl, rfl, rfl, rfl, rfl, rfl, rfl, rfl, hmono n (n + 1) (Nat.le_succ n)⟩

/-- C3 witness: the identity clock is monotone, so the theorem applies; on a
fresh object it yields createdAt zero and lastActive one. -/
theorem first_get_creates_default_record_witness :
    getMemory (fun i => i) ⟨none, 0⟩ =
      (DEFAULT_MEMORY 0 1, ⟨some (DEFAULT_MEMORY 0 1), 2⟩) ∧
    jGet2 (DEFAULT_MEMORY 0 1) (r"profile") (r"riskFactors") = some (.arr []) ∧
    jGet2 (DEFAULT_MEMORY 0 1) (r"profile") (r"conditions") = some (.arr []) ∧
    jGet2 (DEFAULT_MEMORY 0 1) (r"profile") (r"interests") = some (.arr []) ∧
    jGet2 (DEFAULT_MEMORY 0 1) (r"conversation") (r"recentQuestions") = some (.arr []) ∧
    jGet2 (DEFAULT_MEMORY 0 1) (r"conversation") (r"keyInsights") = some (.arr []) ∧
    jGet2 (DEFAULT_MEMORY 0 1) (r"meta") (r"createdAt") = some (.num 0) ∧
    jGet2 (DEFAULT_MEMORY 0 1) (r"meta") (r"lastActive") = some (.num 1) ∧
    (0 : Nat) ≤ 1 :=
  first_get_creates_default_record (fun i => i) (fun _ _ h => h) 0

/-- C3 counterexample: the record created by the first get reads Date.now()
once for createdAt and once more for lastActive; under the (monotone)
identity clock, where time advances by one millisecond between the reads,
the created record has createdAt zero but lastActive one, so createdAt does
not equal lastActive as the claim requires. -/
theorem creation_timestamps_can_differ :
    getMemory (fun i => i) ⟨none, 0⟩ =
      (DEFAULT_MEMORY 0 1, ⟨some (DEFAULT_MEMORY 0 1), 2⟩) ∧
    jGet2 (DEFAULT_MEMORY 0 1) (r"meta") (r"createdAt") = some (.num 0) ∧
    jGet2 (DEFAULT_MEMORY 0 1) (r"meta") (r"lastActive") = some (.num 1) ∧
    jGet2 (DEFAULT_MEMORY 0 1) (r"meta") (r"createdAt") ≠
      jGet2 (DEFAULT_MEMORY 0 1) (r"meta") (r"lastActive") := by
  refine ⟨rfl, rfl, rfl, ?_⟩
  intro hcon
  rw [show jGet2 (DEFAULT_MEMORY 0 1) (r"meta") (r"createdAt") = some (.num 0) from rfl,
    show jGet2 (DEFAULT_MEMORY 0 1) (r"meta") (r"lastActive") = some (.num 1) from rfl] at hcon
  simp at hcon

/-- C4: the empty patch on an existing record with a plain-object meta
rewrites only meta.lastActive, setting it unconditionally to the Date.now()
read of the call; every other top-level field and every other meta field is
returned and persisted exactly as it was. -/
theorem empty_patch_touches_only_lastActive (clock : Clock) (n : Nat)
    (rs ms : List (String × JValue))
    (hmeta : getField rs (r"meta") = some (.obj ms)) :
    updateMemory clock (.obj []) ⟨some (.obj rs), n⟩ =
      (.ok (.obj (setField rs (r"meta")
          (.obj (setField ms (r"lastActive") (.num (clock n)))))),
        ⟨some (.obj (setField rs (r"meta")
          (.obj (setField ms (r"lastActive") (.num (clock n)))))), n + 1⟩) ∧
    (∀ k, k ≠ (r"meta") →
      getField (setField rs (r"meta")
        (.obj (setField ms (r"lastActive") (.num (clock n))))) k = getField rs k) ∧
    (∀ k, k ≠ (r"lastActive") →
      getField (setField ms (r"lastActive") (.num (clock n))) k = getField ms k) ∧
    getField (setField ms (r"lastActive") (.num (clock n))) (r"lastActive") =
      some (.num (clock n)) := by
  refine ⟨?_, ?_, ?_, getField_setField_self _ _ _⟩
  · have h1 : deepMerge (some (.obj rs)) (.obj []) = .ok (.obj rs) := by
      simp [deepMerge, jKeys, mergeFields]
    have h3 := setLastActive_obj (clock n) hmeta
    simp only [updateMemory, getMemory, h1, h3]
  · intro k hk
    exact getField_setField_ne _ _ _ _ hk
  · intro k hk
    exact getField_setField_ne _ _ _ _ hk

/-- C4 witness: the theorem applied to a small record with one profile entry
and both meta timestamps. -/
theorem empty_patch_touches_only_lastActive_witness :
    updateMemory (fun _ => 9) (.obj [])
        ⟨some (.obj [((r"profile"), .obj [((r"riskFactors"), .arr [])]),
          ((r"meta"), .obj [((r"createdAt"), .num 3), ((r"lastActive"), .num 4)])]), 0⟩ =
      (.ok (.obj (setField
          [((r"profile"), .obj [((r"riskFactors"), .arr [])]),
            ((r"meta"), .obj [((r"createdAt"), .num 3), ((r"lastActive"), .num 4)])]
          (r"meta")
          (.obj (setField [((r"createdAt"), .num 3), ((r"lastActive"), .num 4)]
            (r"lastActive") (.num 9))))),
        ⟨some (.obj (setField
          [((r"profile"), .obj [((r"riskFactors"), .arr [])]),
            ((r"meta"), .obj [((r"createdAt"), .num 3), ((r"lastActive"), .num 4)])]
          (r"meta")
          (.obj (setField [((r"createdAt"), .num 3), ((r"lastActive"), .num 4)]
            (r"lastActive") (.num 9))))), 1⟩) ∧
    (∀ k, k ≠ (r"meta") →
      getField (setField
        [((r"profile"), .obj [((r"riskFactors"), .arr [])]),
          ((r"meta"), .obj [((r"createdAt"), .num 3), ((r"lastActive"), .num 4)])]
        (r"meta")
        (.obj (setField [((r"createdAt"), .num 3), ((r"lastActive"), .num 4)]
          (r"lastActive") (.num 9)))) k =
      getField [((r"profile"), .obj [((r"riskFactors"), .arr [])]),
        ((r"meta"), .obj [((r"createdAt"), .num 3), ((r"lastActive"), .num 4)])] k) ∧
    (∀ k, k ≠ (r"lastActive") →
      getField (setField [((r"createdAt"), .num 3), ((r"lastActive"), .num 4)]
        (r"lastActive") (.num 9)) k =
      getField [((r"createdAt"), .num 3), ((r"lastActive"), .num 4)] k) ∧
    getField (setField [((r"createdAt"), .num 3), ((r"lastActive"), .num 4)]
      (r"lastActive") (.num 9)) (r"lastActive") = some (.num 9) :=
  empty_patch_touches_only_lastActive (fun _ => 9) 0
    [((r"profile"), .obj [((r"riskFactors"), .arr [])]),
      ((r"meta"), .obj [((r"createdAt"), .num 3), ((r"lastActive"), .num 4)])]
    [((r"createdAt"), .num 3), ((r"lastActive"), .num 4)] rfl

/-- Effect of the lastActive stamp on a merge result whose meta is a plain
object: the record keeps its shape with meta.lastActive overwritten. -/
theorem setLastActive_stamped {mrs ums0 : List (String × JValue)} {u : JValue} (t : Nat)
    (hmmeta : getField mrs (r"meta") = some (.obj ums0))
    (hsl : setLastActive (.obj mrs) t = .ok u) :
    u = .obj (setField mrs (r"meta") (.obj (setField ums0 (r"lastActive") (.num t)))) ∧
    getField (setField mrs (r"meta")
        (.obj (setField ums0 (r"lastActive") (.num t)))) (r"meta") =
      some (.obj (setField ums0 (r"lastActive") (.num t))) ∧
    getField (setField ums0 (r"lastActive") (.num t)) (r"lastActive") = some (.num t) ∧
    ∀ k, k ≠ (r"lastActive") →
      getField (setField ums0 (r"lastActive") (.num t)) k = getField ums0 k := by
  have h3 := setLastActive_obj t hmmeta
  rw [h3] at hsl
  exact ⟨(Except.ok.inj hsl).symm, getField_setField_self _ _ _, getField_setField_self _ _ _,
    fun k hk => getField_setField_ne _ _ _ _ hk⟩

/-- C5 (amended): on an existing record whose meta is a plain object holding
a lastActive from an earlier clock read, every successful patch that
supplies meta, if at all, as a plain object without createdAt (a) preserves
createdAt exactly, (b) overwrites lastActive with the Date.now() read of the
call, which under a monotone clock is at least the previous value, and (c)
persists the result; and a get on any existing record returns it with the
state completely unchanged. -/
theorem patch_clock_invariants (clock : Clock) (hmono : Clock.Mono clock) (n : Nat)
    {rs ms fs : List (String × JValue)} {i : Nat} {u : JValue} {s2 : DOState}
    (h : updateMemory clock (.obj fs) ⟨some (.obj rs), n⟩ = (.ok u, s2))
    (hmeta : getField rs (r"meta") = some (.obj ms))
    (_hla : getField ms (r"lastActive") = some (.num (clock i)))
    (hi : i ≤ n)
    (hnd : (fs.map Prod.fst).Nodup)
    (hmp : ∀ w, getField fs (r"meta") = some w →
      ∃ mfs, w = .obj mfs ∧ getField mfs (r"createdAt") = none) :
    (∃ us ums, u = .obj us ∧ s2 = ⟨some u, n + 1⟩ ∧
      getField us (r"meta") = some (.obj ums) ∧
      getField ums (r"lastActive") = some (.num (clock n)) ∧
      clock i ≤ clock n ∧
      getField ums (r"createdAt") = getField ms (r"createdAt")) ∧
    (∀ (m : JValue) (j : Nat), getMemory clock ⟨some m, j⟩ = (m, ⟨some m, j⟩)) := by
  refine ⟨?_, fun m j => rfl⟩
  obtain ⟨merged, hdm, hsl, hs2⟩ := updateMemory_ok clock rfl h
  have hdm2 : mergeFields fs (.obj rs) = .ok merged := by
    simpa [deepMerge, jKeys] using hdm
  by_cases hin : (r"meta") ∈ fs.map Prod.fst
  · have hex : ∃ w, getField fs (r"meta") = some w := by
      cases hw : getField fs (r"meta") with
      | none => rw [getField_none_iff] at hw; exact absurd hin hw
      | some w => exact ⟨w, rfl⟩
    obtain ⟨w, hw⟩ := hex
    obtain ⟨mfs, hwobj, hnocreate⟩ := hmp w hw
    subst hwobj
    obtain ⟨tv, m, mrs, hmr, hgetrs, hmsub, hmrs⟩ := mergeFields_recurse hnd hw hdm2
    have htv : tv = .obj ms := by
      rw [hmeta] at hgetrs
      exact (Option.some.inj hgetrs).symm
    subst htv
    obtain ⟨ums0, hmo⟩ := mergeFields_isObj hmsub
    subst hmo
    have hcnot : (r"createdAt") ∉ mfs.map Prod.fst := (getField_none_iff _ _).mp hnocreate
    obtain ⟨ums0b, hob, hcfr⟩ := mergeFields_frame hmsub hcnot
    have hbe : ums0 = ums0b := (JValue.obj.injEq _ _).mp hob
    subst hbe
    subst hmr
    obtain ⟨hu, hm1, hm2, hm3⟩ := setLastActive_stamped (clock n) hmrs hsl
    refine ⟨_, _, hu, hs2, hm1, hm2, hmono i n hi, ?_⟩
    rw [hm3 (r"createdAt") (by decide)]
    exact hcfr
  · obtain ⟨mrs, hmr, heq⟩ := mergeFields_frame hdm2 hin
    subst hmr
    have hmmeta : getField mrs (r"meta") = some (.obj ms) := by rw [heq, hmeta]
    obtain ⟨hu, hm1, hm2, hm3⟩ := setLastActive_stamped (clock n) hmmeta hsl
    exact ⟨_, _, hu, hs2, hm1, hm2, hmono i n hi, hm3 (r"createdAt") (by decide)⟩

/-- C5 witness: under the identity clock, patching profile.interests on a
fresh record created at time zero stamps lastActive with the call time one,
which is at least the previous value zero, and keeps createdAt. -/
theorem patch_clock_invariants_witness :
    ∃ u s2,
      updateMemory (fun i => i)
          (.obj [((r"profile"), .obj [((r"interests"), .arr [.str (r"running")])])])
          ⟨some (.obj
            [((r"profile"), .obj [((r"riskFactors"), .arr []), ((r"conditions"), .arr []),
              ((r"interests"), .arr [])]),
             ((r"conversation"), .obj [((r"recentQuestions"), .arr []),
              ((r"keyInsights"), .arr [])]),
             ((r"meta"), .obj [((r"createdAt"), .num 0), ((r"lastActive"), .num 0)])]), 1⟩ =
        (.ok u, s2) ∧
      ((∃ us ums, u = .obj us ∧ s2 = ⟨some u, 1 + 1⟩ ∧
          getField us (r"meta") = some (.obj ums) ∧
          getField ums (r"lastActive") = some (.num 1) ∧
          (0 : Nat) ≤ 1 ∧
          getField ums (r"createdAt") =
            getField [((r"createdAt"), JValue.num 0), ((r"lastActive"), JValue.num 0)]
              (r"createdAt")) ∧
        (∀ (m : JValue) (j : Nat),
          getMemory (fun i => i) ⟨some m, j⟩ = (m, ⟨some m, j⟩))) := by
  have h := updateMemory_single_field (fun i => i) 1
    [((r"profile"), .obj [((r"riskFactors"), .arr []), ((r"conditions"), .arr []),
        ((r"interests"), .arr [])]),
      ((r"conversation"), .obj [((r"recentQuestions"), .arr []),
        ((r"keyInsights"), .arr [])]),
      ((r"meta"), .obj [((r"createdAt"), .num 0), ((r"lastActive"), .num 0)])]
    [((r"riskFactors"), .arr []), ((r"conditions"), .arr []), ((r"interests"), .arr [])]
    [((r"createdAt"), .num 0), ((r"lastActive"), .num 0)]
    (r"profile") (r"interests") (.arr [.str (r"running")])
    rfl rfl (by decide) rfl
  exact ⟨_, _, h,
    patch_clock_invariants (fun i => i) (fun _ _ hh => hh) 1 h rfl rfl (by decide)
      (by decide) (fun w hw => by simp [getField] at hw)⟩

/-- C5 counterexample: a patch that supplies meta.createdAt rewrites it - the
stored createdAt changes from zero to forty-two through a successful patch,
so createdAt is not immutable regardless of patch contents as the claim
states. -/
theorem patch_can_overwrite_createdAt :
    ∃ u, updateMemory (fun i => i)
        (.obj [((r"meta"), .obj [((r"createdAt"), .num 42)])])
        ⟨some (DEFAULT_MEMORY 0 0), 2⟩ = (.ok u, ⟨some u, 3⟩) ∧
      jGet2 (DEFAULT_MEMORY 0 0) (r"meta") (r"createdAt") = some (.num 0) ∧
      jGet2 u (r"meta") (r"createdAt") = some (.num 42) ∧
      (some (JValue.num 42) : Option JValue) ≠ some (JValue.num 0) :=
  ⟨_, rfl, rfl, rfl, by simp⟩

/-- C6: in a successful merge, a key absent from the patch keeps its value
from the record, while a key the patch supplies as explicit null is
assigned, the stored field becoming null (patch keys are distinct, as in any
JavaScript object). -/
theorem absent_key_noop_null_assigned :
    (∀ (ts fs : List (String × JValue)) (res : JValue) (k : String),
        deepMerge (some (.obj ts)) (.obj fs) = .ok res → k ∉ fs.map Prod.fst →
        ∃ ts2, res = .obj ts2 ∧ getField ts2 k = getField ts k) ∧
    (∀ (ts fs : List (String × JValue)) (res : JValue) (k : String),
        (fs.map Prod.fst).Nodup → getField fs k = some JValue.null →
        deepMerge (some (.obj ts)) (.obj fs) = .ok res →
        ∃ ts2, res = .obj ts2 ∧ getField ts2 k = some JValue.null) := by
  constructor
  · intro ts fs res k h hk
    exact mergeFields_frame (by simpa [deepMerge, jKeys] using h) hk
  · intro ts fs res k hnd hg h
    exact mergeFields_assign (show isPlainObject JValue.null = false from rfl) hnd hg
      (by simpa [deepMerge, jKeys] using h)

/-- C6 witness: a patch not mentioning x leaves x at five, and a patch
supplying y as null stores null at y. -/
theorem absent_key_noop_null_assigned_witness :
    (∃ ts2, JValue.obj [((r"x"), JValue.num 5), ((r"y"), JValue.null)] = .obj ts2 ∧
      getField ts2 (r"x") = getField [((r"x"), JValue.num 5)] (r"x")) ∧
    (∃ ts2, JValue.obj [((r"y"), JValue.null)] = .obj ts2 ∧
      getField ts2 (r"y") = some JValue.null) :=
  ⟨absent_key_noop_null_assigned.1 [((r"x"), .num 5)] [((r"y"), JValue.null)]
      (.obj [((r"x"), .num 5), ((r"y"), JValue.null)]) (r"x") rfl (by decide),
    absent_key_noop_null_assigned.2 [((r"y"), .num 7)] [((r"y"), JValue.null)]
      (.obj [((r"y"), JValue.null)]) (r"y") (by decide) rfl rfl⟩

/-- C7 counterexample: a patch supplying profile.riskFactors as the string
oops, where the schema expects an array, is neither rejected nor dropped -
updateMemory succeeds and the mismatched string is persisted and returned
as-is, so no MalformedPatch policy exists. -/
theorem type_mismatch_stored_as_is :
    ∃ u, updateMemory (fun _ => 7)
        (.obj [((r"profile"), .obj [((r"riskFactors"), .str (r"oops"))])])
        ⟨some (DEFAULT_MEMORY 0 0), 2⟩ = (.ok u, ⟨some u, 3⟩) ∧
      jGet2 u (r"profile") (r"riskFactors") = some (.str (r"oops")) :=
  ⟨_, rfl, rfl⟩

/-- C7 (amended): updateMemory performs no schema validation at all - a
section-field patch whose value has any non-object type, matching the schema
or not, always succeeds and stores the value verbatim. -/
theorem patch_performs_no_validation (clock : Clock) (n : Nat)
    (rs ssec ms : List (String × JValue)) (sec fld : String) (v : JValue)
    (hsec : getField rs sec = some (.obj ssec))
    (hmeta : getField rs (r"meta") = some (.obj ms))
    (hne : sec ≠ (r"meta"))
    (hv : isPlainObject v = false) :
    ∃ u, ∃ us fsec : List (String × JValue),
      updateMemory clock (.obj [(sec, .obj [(fld, v)])]) ⟨some (.obj rs), n⟩ =
        (.ok u, ⟨some u, n + 1⟩) ∧
      u = .obj us ∧ getField us sec = some (.obj fsec) ∧ getField fsec fld = some v := by
  have h := updateMemory_single_field clock n rs ssec ms sec fld v hsec hmeta hne hv
  refine ⟨_, _, setField ssec fld v, h, rfl, ?_, getField_setField_self _ _ _⟩
  rw [getField_setField_ne _ _ _ _ hne]
  exact getField_setField_self _ _ _

/-- C7 witness: storing the number three at conversation.keyInsights, where
the schema expects an array of strings, succeeds verbatim. -/
theorem patch_performs_no_validation_witness :
    ∃ u, ∃ us fsec : List (String × JValue),
      updateMemory (fun _ => 4)
          (.obj [((r"conversation"), .obj [((r"keyInsights"), .num 3)])])
          ⟨some (.obj [((r"conversation"), .obj [((r"keyInsights"), .arr [])]),
            ((r"meta"), .obj [((r"createdAt"), .num 0), ((r"lastActive"), .num 0)])]), 0⟩ =
        (.ok u, ⟨some u, 0 + 1⟩) ∧
      u = .obj us ∧ getField us (r"conversation") = some (.obj fsec) ∧
      getField fsec (r"keyInsights") = some (.num 3) :=
  patch_performs_no_validation (fun _ => 4) 0
    [((r"conversation"), .obj [((r"keyInsights"), .arr [])]),
      ((r"meta"), .obj [((r"createdAt"), .num 0), ((r"lastActive"), .num 0)])]
    [((r"keyInsights"), .arr [])]
    [((r"createdAt"), .num 0), ((r"lastActive"), .num 0)]
    (r"conversation") (r"keyInsights") (.num 3) rfl rfl (by decide) rfl

/-- C8: in the fallback variant, when the persistence write is unavailable
(putOk false), updateMemory catches the failure and still returns the merged
record as a success, while the stored record remains the unchanged default -
the claimed StorageUnavailable failure never surfaces. -/
theorem fallback_update_swallows_write_failure :
    ∃ u, updateMemoryF (fun i => i)
        (.obj [((r"profile"), .obj [((r"riskFactors"), .arr [.str (r"X")])])])
        ⟨some (DEFAULT_MEMORY 0 0), 2, true, false⟩ =
      (.ok u, ⟨some (DEFAULT_MEMORY 0 0), 3, true, false⟩) ∧
    jGet2 u (r"profile") (r"riskFactors") = some (.arr [.str (r"X")]) ∧
    jGet2 (DEFAULT_MEMORY 0 0) (r"profile") (r"riskFactors") = some (.arr []) :=
  ⟨_, rfl, rfl, rfl⟩

/-- Two successive single-field patches on the profile of the same identity
both take effect: the first field keeps its written value after the second
patch, whatever the order encoded by f1 and f2. -/
theorem sysPatch_two (clock : Clock) (uid : String) (sys : SystemState)
    {rs ps ms : List (String × JValue)} {n : Nat} (f1 f2 : String) (w1 w2 : JValue)
    (hsys : sys uid = ⟨some (.obj rs), n⟩)
    (hprof : getField rs (r"profile") = some (.obj ps))
    (hmeta : getField rs (r"meta") = some (.obj ms))
    (hf : f2 ≠ f1)
    (hw1 : isPlainObject w1 = false) (hw2 : isPlainObject w2 = false) :
    ∃ rs2 ps2,
      ((sysPatch clock uid (.obj [((r"profile"), .obj [(f2, w2)])])
          (sysPatch clock uid (.obj [((r"profile"), .obj [(f1, w1)])]) sys)) uid).mem =
        some (.obj rs2) ∧
      getField rs2 (r"profile") = some (.obj ps2) ∧
      getField ps2 f1 = some w1 ∧ getField ps2 f2 = some w2 := by
  have h1 := updateMemory_single_field clock n rs ps ms (r"profile") f1 w1
    hprof hmeta (by decide) hw1
  have hprof1 : getField (setField (setField rs (r"profile") (.obj (setField ps f1 w1)))
      (r"meta") (.obj (setField ms (r"lastActive") (.num (clock n))))) (r"profile") =
      some (.obj (setField ps f1 w1)) := by
    rw [getField_setField_ne _ _ _ _ (by decide)]
    exact getField_setField_self _ _ _
  have hmeta1 : getField (setField (setField rs (r"profile") (.obj (setField ps f1 w1)))
      (r"meta") (.obj (setField ms (r"lastActive") (.num (clock n))))) (r"meta") =
      some (.obj (setField ms (r"lastActive") (.num (clock n)))) :=
    getField_setField_self _ _ _
  have h2 := updateMemory_single_field clock (n + 1) _ _ _ (r"profile") f2 w2
    hprof1 hmeta1 (by decide) hw2
  have houter : ((sysPatch clock uid (.obj [((r"profile"), .obj [(f2, w2)])])
      (sysPatch clock uid (.obj [((r"profile"), .obj [(f1, w1)])]) sys)) uid) =
      ⟨some (.obj (setField (setField (setField (setField rs (r"profile")
            (.obj (setField ps f1 w1))) (r"meta")
            (.obj (setField ms (r"lastActive") (.num (clock n)))))
          (r"profile") (.obj (setField (setField ps f1 w1) f2 w2))) (r"meta")
          (.obj (setField (setField ms (r"lastActive") (.num (clock n)))
            (r"lastActive") (.num (clock (n + 1))))))), n + 1 + 1⟩ := by
    simp [sysPatch, hsys, h1, h2]
  refine ⟨_, setField (setField ps f1 w1) f2 w2, by rw [houter], ?_, ?_, ?_⟩
  · rw [getField_setField_ne _ _ _ _ (by decide)]
    exact getField_setField_self _ _ _
  · rw [getField_setField_ne _ _ _ _ (Ne.symm hf)]
    exact getField_setField_self _ _ _
  · exact getField_setField_self _ _ _

/-- C9: on one identity, the two disjoint profile patches of the spec - one
writing riskFactors X, one writing conditions Y - both take effect in the
final stored record whichever serialized order the Durable Object executes
them in, and patches addressed to one identity leave the state of every
other identity untouched. -/
theorem disjoint_patches_commute_no_lost_update (clock : Clock) (uid : String)
    (sys : SystemState) {rs ps ms : List (String × JValue)} {n : Nat}
    (hsys : sys uid = ⟨some (.obj rs), n⟩)
    (hprof : getField rs (r"profile") = some (.obj ps))
    (hmeta : getField rs (r"meta") = some (.obj ms)) :
    (∃ rs2 ps2, ((sysPatch clock uid patchCondY
        (sysPatch clock uid patchRiskX sys)) uid).mem = some (.obj rs2) ∧
      getField rs2 (r"profile") = some (.obj ps2) ∧
      getField ps2 (r"riskFactors") = some (.arr [.str (r"X")]) ∧
      getField ps2 (r"conditions") = some (.arr [.str (r"Y")])) ∧
    (∃ rs2 ps2, ((sysPatch clock uid patchRiskX
        (sysPatch clock uid patchCondY sys)) uid).mem = some (.obj rs2) ∧
      getField rs2 (r"profile") = some (.obj ps2) ∧
      getField ps2 (r"riskFactors") = some (.arr [.str (r"X")]) ∧
      getField ps2 (r"conditions") = some (.arr [.str (r"Y")])) ∧
    ∀ u2, u2 ≠ uid →
      (sysPatch clock uid patchCondY (sysPatch clock uid patchRiskX sys)) u2 = sys u2 ∧
      (sysPatch clock uid patchRiskX (sysPatch clock uid patchCondY sys)) u2 = sys u2 := by
  refine ⟨?_, ?_, ?_⟩
  · obtain ⟨rs2, ps2, hmem, hp, hx, hy⟩ := sysPatch_two clock uid sys
      (r"riskFactors") (r"conditions") (.arr [.str (r"X")]) (.arr [.str (r"Y")])
      hsys hprof hmeta (by decide) rfl rfl
    exact ⟨rs2, ps2, hmem, hp, hx, hy⟩
  · obtain ⟨rs2, ps2, hmem, hp, hy, hx⟩ := sysPatch_two clock uid sys
      (r"conditions") (r"riskFactors") (.arr [.str (r"Y")]) (.arr [.str (r"X")])
      hsys hprof hmeta (by decide) rfl rfl
    exact ⟨rs2, ps2, hmem, hp, hx, hy⟩
  · intro u2 hne
    constructor
    · simp [sysPatch, hne]
    · simp [sysPatch, hne]

/-- C9 witness: the theorem applied to a one-user system holding a fresh
default record under the identity alice. -/
theorem disjoint_patches_commute_witness :
    (∃ rs2 ps2, ((sysPatch (fun i => i) (r"alice") patchCondY
        (sysPatch (fun i => i) (r"alice") patchRiskX
          (fun _ => ⟨some (DEFAULT_MEMORY 0 0), 0⟩))) (r"alice")).mem = some (.obj rs2) ∧
      getField rs2 (r"profile") = some (.obj ps2) ∧
      getField ps2 (r"riskFactors") = some (.arr [.str (r"X")]) ∧
      getField ps2 (r"conditions") = some (.arr [.str (r"Y")])) ∧
    (∃ rs2 ps2, ((sysPatch (fun i => i) (r"alice") patchRiskX
        (sysPatch (fun i => i) (r"alice") patchCondY
          (fun _ => ⟨some (DEFAULT_MEMORY 0 0), 0⟩))) (r"alice")).mem = some (.obj rs2) ∧
      getField rs2 (r"profile") = some (.obj ps2) ∧
      getField ps2 (r"riskFactors") = some (.arr [.str (r"X")]) ∧
      getField ps2 (r"conditions") = some (.arr [.str (r"Y")])) ∧
    ∀ u2, u2 ≠ (r"alice") →
      (sysPatch (fun i => i) (r"alice") patchCondY
        (sysPatch (fun i => i) (r"alice") patchRiskX
          (fun _ => ⟨some (DEFAULT_MEMORY 0 0), 0⟩))) u2 =
        (fun _ => (⟨some (DEFAULT_MEMORY 0 0), 0⟩ : DOState)) u2 ∧
      (sysPatch (fun i => i) (r"alice") patchRiskX
        (sysPatch (fun i => i) (r"alice") patchCondY
          (fun _ => ⟨some (DEFAULT_MEMORY 0 0), 0⟩))) u2 =
        (fun _ => (⟨some (DEFAULT_MEMORY 0 0), 0⟩ : DOState)) u2 :=
  disjoint_patches_commute_no_lost_update (fun i => i) (r"alice")
    (fun _ => ⟨some (DEFAULT_MEMORY 0 0), 0⟩) rfl rfl rfl

/-- C10 counterexample: a patch whose unknown top-level key extra carries a
plain-object value is not copied wholesale - deepMerge recurses into the
absent target key, the JSON round trip of undefined throws a SyntaxError,
the whole patch is rejected and nothing is persisted. -/
theorem unknown_object_key_patch_throws :
    updateMemory (fun i => i) (.obj [((r"extra"), .obj [((r"x"), .num 1)])])
        ⟨some (DEFAULT_MEMORY 0 0), 2⟩ =
      (.error .syntaxError, ⟨some (DEFAULT_MEMORY 0 0), 2⟩) := rfl

/-- C10 (amended): a patch key that is not a field of the stored record and
carries a non-object value is neither rejected nor stripped: the merged
record holds it verbatim, it is persisted, and the next get returns it. -/
theorem unknown_scalar_key_persisted (clock : Clock) (n : Nat)
    {rs ms fs : List (String × JValue)} {k : String} {v u : JValue} {s2 : DOState}
    (h : updateMemory clock (.obj fs) ⟨some (.obj rs), n⟩ = (.ok u, s2))
    (hmeta : getField rs (r"meta") = some (.obj ms))
    (hunknown : getField rs k = none)
    (hnd : (fs.map Prod.fst).Nodup)
    (hpk : getField fs k = some v)
    (hv : isPlainObject v = false) :
    ∃ us, u = .obj us ∧ s2 = ⟨some u, n + 1⟩ ∧ getField us k = some v ∧
      getMemory clock s2 = (u, s2) := by
  have hkm : k ≠ (r"meta") := by
    intro he
    rw [he, hmeta] at hunknown
    exact Option.noConfusion hunknown
  obtain ⟨merged, hdm, hsl, hs2⟩ := updateMemory_ok clock rfl h
  have hdm2 : mergeFields fs (.obj rs) = .ok merged := by
    simpa [deepMerge, jKeys] using hdm
  obtain ⟨mrs, hmr, hmk⟩ := mergeFields_assign hv hnd hpk hdm2
  subst hmr
  obtain ⟨fs2, m2, hfs2, hu⟩ := setLastActive_ok_shape hsl
  have hfs2e : mrs = fs2 := (JValue.obj.injEq _ _).mp hfs2
  subst hfs2e
  refine ⟨setField mrs (r"meta") m2, hu, hs2, ?_, ?_⟩
  · rw [getField_setField_ne _ _ _ _ hkm]
    exact hmk
  · subst hs2
    rfl

/-- C10 witness: patching the unknown key favoriteColor with the string blue
on a fresh default record stores and returns it. -/
theorem unknown_scalar_key_persisted_witness :
    ∃ u s2,
      updateMemory (fun _ => 8) (.obj [((r"favoriteColor"), .str (r"blue"))])
          ⟨some (DEFAULT_MEMORY 0 0), 2⟩ = (.ok u, s2) ∧
      ∃ us, u = .obj us ∧ s2 = ⟨some u, 2 + 1⟩ ∧
        getField us (r"favoriteColor") = some (.str (r"blue")) ∧
        getMemory (fun _ => 8) s2 = (u, s2) := by
  have h : updateMemory (fun _ => 8) (.obj [((r"favoriteColor"), .str (r"blue"))])
      ⟨some (DEFAULT_MEMORY 0 0), 2⟩ =
      (.ok (.obj
        [((r"profile"), .obj [((r"riskFactors"), .arr []), ((r"conditions"), .arr []),
          ((r"interests"), .arr [])]),
         ((r"conversation"), .obj [((r"recentQuestions"), .arr []),
          ((r"keyInsights"), .arr [])]),
         ((r"meta"), .obj [((r"createdAt"), .num 0), ((r"lastActive"), .num 8)]),
         ((r"favoriteColor"), .str (r"blue"))]),
       ⟨some (.obj
        [((r"profile"), .obj [((r"riskFactors"), .arr []), ((r"conditions"), .arr []),
          ((r"interests"), .arr [])]),
         ((r"conversation"), .obj [((r"recentQuestions"), .arr []),
          ((r"keyInsights"), .arr [])]),
         ((r"meta"), .obj [((r"createdAt"), .num 0), ((r"lastActive"), .num 8)]),
         ((r"favoriteColor"), .str (r"blue"))]), 3⟩) := rfl
  exact ⟨_, _, h, unknown_scalar_key_persisted (fun _ => 8) 2 h rfl rfl (by decide) rfl rfl⟩
